import Mathlib

/-!
Verification of the smart-storage vault engine against its specification.

The definitions below are a shallow embedding of the TypeScript sources:
`StorageVault` (src/vault/storage-vault.ts), the key/expiry helpers
(src/vault/helpers.ts), the transform chain (src/transform/transform-chain.ts
and src/transform/transform-handler.ts), the legacy transform pipeline
(transforms/pipeline.ts) and the storage adapters (src/storage/*).

JavaScript details modelled explicitly:
- `Date.now()` timestamps and TTL millisecond arguments are integers (`Time := Int`);
  a TTL argument is a JavaScript number, so NaN and the infinities are represented.
- A JS object used as a string-keyed record is an insertion-ordered association
  list with unique keys; `data[k] = v` updates in place (keeping the key's
  position) or appends a new key at the end; `delete data[k]` removes the entry
  without reordering the rest.
- Code that can throw returns `Except` (or `Option` for the string transforms,
  where `none` models a thrown exception); thrown exceptions do not roll back
  state, so stateful operations return the poststate alongside the `Except`.
- `JSON.stringify` / `JSON.parse` are external collaborators: they are fields of
  an abstract codec.  `stringify` returns `none` to model a circular-reference
  `TypeError`; `parse` returns `none` for a parse throw and `ParsedJson.invalid`
  for text that parses but fails the `isValidDataRecord` shape check
  (array / null / primitive).
- The physical store: `Map` (in-memory kind) never throws on write; a real web
  store throws `QuotaExceededError` according to a fault-injection schedule
  `quotaAt` indexed by the write-attempt counter.  `getStorage()` is null exactly
  when `isAvailable()` is false (true of every adapter in src/storage).
-/

namespace SmartStorage

/-- A JavaScript number as used for TTL arguments: a finite integer number of
milliseconds, NaN, or an infinity. -/
inductive JsNum where
  | fin (v : Int)
  | nan
  | posInf
  | negInf
deriving DecidableEq, Repr

/-- `Number.isFinite`. -/
def JsNum.isFinite : JsNum → Bool
  | .fin _ => true
  | _ => false

/-- The JS comparison `x < 0` (false for NaN). -/
def JsNum.isNeg : JsNum → Bool
  | .fin v => v < 0
  | .negInf => true
  | _ => false

/-- The JS comparison `x <= 0` (false for NaN). -/
def JsNum.isNonPos : JsNum → Bool
  | .fin v => v ≤ 0
  | .negInf => true
  | _ => false

/-- Absolute timestamps (`Date.now()`), in milliseconds. -/
abbrev Time := Int

/-- `StoredData<T>` from src/vault/types.ts: a value together with an absolute
expiry timestamp, `none` meaning no expiry (`expiry: number | null`). -/
structure StoredData (V : Type) where
  value : V
  expiry : Option Time
deriving DecidableEq, Repr

/-- `DataRecord`: a JS object mapping string keys to stored items, modelled as an
insertion-ordered association list (unique keys are an invariant of JS objects). -/
abbrev DataRecord (V : Type) := List (String × StoredData V)

/-- JS property read `data[k]`, restricted to own properties.  A real JS read
of a key such as `__proto__` on a record without that own key finds an
inherited member through the prototype chain instead of `undefined`; this
model reads own keys only, so it is exact at own-present keys and at keys no
prototype defines (in particular the empty and whitespace-only keys). -/
def recordGet {V : Type} : DataRecord V → String → Option (StoredData V)
  | [], _ => none
  | (k2, it) :: rest, k => if k2 = k then some it else recordGet rest k

/-- The JS `k in data` test. -/
def recordHasKey {V : Type} (d : DataRecord V) (k : String) : Bool :=
  (recordGet d k).isSome

/-- JS assignment `data[k] = it`: update in place when the key exists (keeping
its position), append at the end otherwise. -/
def recordSet {V : Type} : DataRecord V → String → StoredData V → DataRecord V
  | [], k, it => [(k, it)]
  | (k2, it2) :: rest, k, it =>
      if k2 = k then (k2, it) :: rest else (k2, it2) :: recordSet rest k it

/-- JS `delete data[k]`. -/
def recordDelete {V : Type} (d : DataRecord V) (k : String) : DataRecord V :=
  d.filter (fun e => e.1 != k)

/-- `DANGEROUS_KEYS` from src/vault/constants.ts. -/
def DANGEROUS_KEYS : List String := ["__proto__", "constructor", "prototype"]

/-- `isExpired` from src/vault/helpers.ts: `Date.now() > expiry`, never expired
when `expiry` is null. -/
def isExpired (now : Time) : Option Time → Bool
  | none => false
  | some e => now > e

/-- The distinct errors a vault operation can throw (each corresponds to one
`throw new Error(...)` site in the source). -/
inductive VaultError where
  | storageUnavailable
  | emptyKey
  | dangerousKey (k : String)
  | invalidTTL
  | invalidAdditionalTTL
  | quotaExceeded
  | quotaDuringCleanup
  | circularRef
  | saveFailed
  | clearFailed
deriving DecidableEq, Repr

/-- JS `String.prototype.trim`, modelled over the character list (structural
recursion so that concrete keys evaluate inside the kernel). -/
def jsTrim (s : String) : String :=
  String.mk (((s.toList.dropWhile Char.isWhitespace).reverse.dropWhile
    Char.isWhitespace).reverse)

/-- `validateKey` from src/vault/helpers.ts: null storage, empty or
whitespace-only key, then the prototype-pollution denylist.  Returns the error
it would throw, or `none` when the key passes. -/
def validateKey (key : String) (storageAvailable : Bool) : Option VaultError :=
  if !storageAvailable then some .storageUnavailable
  else if key = "" || jsTrim key = "" then some .emptyKey
  else if DANGEROUS_KEYS.contains key then some (.dangerousKey key)
  else none

/-- One transform link: a forward (`serialize`/`process`) and a backward
(`deserialize`/`reverseProcess`) string transform.  `none` models a throw. -/
structure TransformLink where
  forward : String → Option String
  backward : String → Option String

/-- `TransformChain.apply` (transform-chain.ts): `head.serialize` walks the chain
head to tail, feeding each link's output to the next; empty chain is identity. -/
def chainApplyLinks : List TransformLink → String → Option String
  | [], s => some s
  | l :: ls, s =>
      match l.forward s with
      | none => none
      | some t => chainApplyLinks ls t

/-- Helper: apply the `backward` functions of the given links in list order. -/
def chainBackwards : List TransformLink → String → Option String
  | [], s => some s
  | l :: ls, s =>
      match l.backward s with
      | none => none
      | some t => chainBackwards ls t

/-- `TransformChain.reverse` (transform-chain.ts): `tail.deserialize` walks the
chain tail to head, so the backward functions run in exact inverse order. -/
def chainReverseLinks (links : List TransformLink) (s : String) : Option String :=
  chainBackwards links.reverse s

/-- `TransformPipeline.apply` (transforms/pipeline.ts): `reduce` over the
transforms in order, serializing. -/
def pipelineApply (links : List TransformLink) (s : String) : Option String :=
  links.foldl (fun acc l => acc.bind l.forward) (some s)

/-- `TransformPipeline.reverse` (transforms/pipeline.ts): `reduceRight` over the
transforms, deserializing in inverse order. -/
def pipelineReverse (links : List TransformLink) (s : String) : Option String :=
  links.foldr (fun l acc => acc.bind l.backward) (some s)

/-- Outcome of `JSON.parse` as classified by `isValidDataRecord`
(src/vault/helpers.ts): a plain-object record, or a value of the wrong shape
(array, null, or primitive). -/
inductive ParsedJson (V : Type) where
  | record (d : DataRecord V)
  | invalid
deriving DecidableEq

/-- The JSON collaborator: `stringify` returns `none` to model a
circular-reference `TypeError`; `parse` returns `none` to model a parse throw. -/
structure JsonCodec (V : Type) where
  stringify : DataRecord V → Option String
  parse : String → Option (ParsedJson V)

/-- Which physical store the adapter bound to (storage-type.ts). -/
inductive StorageKind where
  | browserLocal
  | browserSession
  | inMemory
deriving DecidableEq, Repr

/-- The storage adapter's observable state, restricted to the single vault key:
`content` is what is stored under it, `writeLog` records every successful write
in order, and `quotaAt` is the fault-injection schedule saying which write
attempts throw `QuotaExceededError` (never for the in-memory `Map` kind). -/
structure Backend where
  kind : StorageKind
  available : Bool
  content : Option String
  writeLog : List String
  attempts : Nat
  quotaAt : Nat → Bool

/-- Adapter `read(key)`: null when the storage is null, else the stored text. -/
def Backend.read (b : Backend) : Option String :=
  if !b.available then none else b.content

/-- Adapter `write(key, value)`: silently returns when the storage is null; a
`Map` store never throws; a web store throws quota per the schedule.  Returns
whether the write succeeded (a failed attempt still consumes an attempt index
and leaves the content unchanged). -/
def Backend.write (b : Backend) (s : String) : Bool × Backend :=
  if !b.available then (true, b)
  else if b.kind != .inMemory && b.quotaAt b.attempts then
    (false, { b with attempts := b.attempts + 1 })
  else
    (true, { b with content := some s, writeLog := b.writeLog ++ [s],
                    attempts := b.attempts + 1 })

/-- Adapter `remove(key)`: silently returns when the storage is null. -/
def Backend.removeKey (b : Backend) : Backend :=
  if !b.available then b else { b with content := none }

/-- The backend state after a successful write of `out`. -/
def writtenBackend (b : Backend) (out : String) : Backend :=
  { b with content := some out
           writeLog := b.writeLog ++ [out]
           attempts := b.attempts + 1 }

/-- The per-instance configuration the vault logic depends on.  `maxSizeBytes`
is omitted: exceeding it only triggers a diagnostic-log branch with no effect on
behaviour. -/
structure VaultConfig (V : Type) where
  debounceMs : Int
  maxItemsInMemory : Nat
  links : List TransformLink
  codec : JsonCodec V

/-- The vault engine's mutable state: the backend, the dirty (debounce) buffer,
whether a flush timer is scheduled (`pendingSave !== null`), and the
quota-recovery reentrancy flag. -/
structure VaultState (V : Type) where
  backend : Backend
  dirty : Option (DataRecord V)
  pendingTimer : Bool
  isCleaningUp : Bool

/-- The corrupted-data recovery inside `getAllData`'s catch: best-effort
`storage.remove(storageKey)`. -/
def clearCorrupted {V : Type} (s : VaultState V) : VaultState V :=
  { s with backend := s.backend.removeKey }

/-- `getAllData` (storage-vault.ts lines 191-224): null storage gives an empty
record; a non-null dirty buffer shadows the backend (the source returns a fresh
shallow copy, which is equal to the buffer as a value — the aliasing aspect is
modelled separately by `HeapState` below); otherwise read, reverse the transform
chain, JSON-parse and shape-validate, treating any failure as corruption by
removing the persisted entry and returning an empty record. -/
def getAllData {V : Type} (cfg : VaultConfig V) (s : VaultState V) :
    DataRecord V × VaultState V :=
  if !s.backend.available then ([], s)
  else
    match s.dirty with
    | some d => (d, s)
    | none =>
      match s.backend.read with
      | none => ([], s)
      | some raw =>
        if raw = "" then ([], s)
        else
          match chainReverseLinks cfg.links raw with
          | none => ([], clearCorrupted s)
          | some str =>
            match cfg.codec.parse str with
            | some (.record d) => (d, s)
            | some .invalid => ([], clearCorrupted s)
            | none => ([], clearCorrupted s)

/-- The comparison key of `enforceItemLimit`'s sort: `expiry ?? Infinity`, so
items with no expiry sort after every finite expiry. -/
def expiryLE (a b : Option Time) : Bool :=
  match a, b with
  | some x, some y => x ≤ y
  | some _, none => true
  | none, some _ => false
  | none, none => true

/-- The sort relation on record entries used by `enforceItemLimit`. -/
def entryRel {V : Type} (a b : String × StoredData V) : Prop :=
  expiryLE a.2.expiry b.2.expiry = true

instance {V : Type} : DecidableRel (entryRel (V := V)) :=
  fun a b => decEq (expiryLE a.2.expiry b.2.expiry) true

theorem expiryLE_total (a b : Option Time) : expiryLE a b = true ∨ expiryLE b a = true := by
  rcases a with _ | x <;> rcases b with _ | y <;>
    simp only [expiryLE, decide_eq_true_eq] <;> first | tauto | exact le_total x y

theorem expiryLE_trans (a b c : Option Time) (h1 : expiryLE a b = true)
    (h2 : expiryLE b c = true) : expiryLE a c = true := by
  rcases a with _ | x <;> rcases b with _ | y <;> rcases c with _ | z <;>
    revert h1 h2 <;> simp [expiryLE] <;> exact fun u v => le_trans u v

instance {V : Type} : IsTotal (String × StoredData V) entryRel :=
  ⟨fun a b => expiryLE_total a.2.expiry b.2.expiry⟩

instance {V : Type} : IsTrans (String × StoredData V) entryRel :=
  ⟨fun a b c h1 h2 => expiryLE_trans a.2.expiry b.2.expiry c.2.expiry h1 h2⟩

/-- `enforceItemLimit` (storage-vault.ts lines 344-363): sort the keys by expiry
ascending (no expiry last; the ECMAScript sort is stable, so a stable sort is
the faithful embedding), then delete the first `length - maxItems` keys from the
record (which keeps the surviving entries in their original order). -/
def enforceItemLimit {V : Type} (maxItems : Nat) (data : DataRecord V) :
    DataRecord V :=
  if data.length ≤ maxItems then data
  else
    let sorted := List.insertionSort entryRel data
    let removedKeys := (sorted.take (data.length - maxItems)).map Prod.fst
    data.filter (fun e => !(removedKeys.contains e.1))

/-- The JS-level errors a save can raise before `handleSaveError` classifies
them: a quota throw from the store, a circular-reference `TypeError` from
`JSON.stringify`, or a throw from a forward transform link. -/
inductive JsError where
  | quota
  | circular
  | pipelineFail
deriving DecidableEq, Repr

/-- The try-block of `saveAllDataImmediate` (storage-vault.ts lines 229-255)
without the error handler: null storage returns silently; the item limit is
enforced first when the store is the in-memory `Map` and the candidate record
exceeds the configured maximum; then stringify, apply the transform chain, and
write. -/
def saveImmediateRaw {V : Type} (cfg : VaultConfig V) (data : DataRecord V)
    (s : VaultState V) : Option JsError × VaultState V :=
  if !s.backend.available then (none, s)
  else
    let data2 :=
      if s.backend.kind == .inMemory && data.length > cfg.maxItemsInMemory then
        enforceItemLimit cfg.maxItemsInMemory data
      else data
    match cfg.codec.stringify data2 with
    | none => (some .circular, s)
    | some str =>
      match chainApplyLinks cfg.links str with
      | none => (some .pipelineFail, s)
      | some out =>
        let (ok, b2) := s.backend.write out
        if ok then (none, { s with backend := b2 })
        else (some .quota, { s with backend := b2 })

/-- `handleSaveError` (storage-vault.ts lines 260-292) as it behaves when
`isCleaningUp` is already true: quota hits the reentrancy guard and throws
immediately; the circular-reference and generic branches do not consult the
flag. -/
def handleSaveErrorGuarded : JsError → VaultError
  | .quota => .quotaDuringCleanup
  | .circular => .circularRef
  | .pipelineFail => .saveFailed

/-- A condition of the `cleanupExpiredItems` scan: `expiry !== null && now > expiry`. -/
def cleanupCond {V : Type} (now : Time) (e : String × StoredData V) : Bool :=
  match e.2.expiry with
  | none => false
  | some t => now > t

/-- `saveAllDataImmediate` as executed while `isCleaningUp` is true (the call
made by `cleanupExpiredItems` during quota recovery): errors go through the
guarded `handleSaveError` branches. -/
def saveImmediateGuarded {V : Type} (cfg : VaultConfig V) (data : DataRecord V)
    (s : VaultState V) : Except VaultError Unit × VaultState V :=
  match saveImmediateRaw cfg data s with
  | (none, s2) => (.ok (), s2)
  | (some e, s2) => (.error (handleSaveErrorGuarded e), s2)

/-- `cleanupExpiredItems` (storage-vault.ts lines 561-583) as executed while
`isCleaningUp` is true (inside quota recovery): scan the record, delete every
item with `expiry !== null && now > expiry`, and write once immediately if any
was removed. -/
def cleanupGuarded {V : Type} (cfg : VaultConfig V) (now : Time)
    (s : VaultState V) : Except VaultError Nat × VaultState V :=
  if !s.backend.available then (.ok 0, s)
  else
    let (data, s2) := getAllData cfg s
    let n := (data.filter (cleanupCond now)).length
    let data2 := data.filter (fun e => !cleanupCond now e)
    if n > 0 then
      match saveImmediateGuarded cfg data2 s2 with
      | (.ok _, s3) => (.ok n, s3)
      | (.error err, s3) => (.error err, s3)
    else (.ok n, s2)

/-- `handleSaveError` when `isCleaningUp` is false: a quota error sets the flag,
runs `cleanupExpiredItems`, re-reads the record set, re-serializes, re-applies
the transforms and retries the write once; any throw inside that block surfaces
as the fatal quota error; the flag is cleared in a `finally`.  The other error
kinds are classified directly. -/
def handleSaveErrorTop {V : Type} (cfg : VaultConfig V) (e : JsError)
    (now : Time) (s : VaultState V) : Except VaultError Unit × VaultState V :=
  match e with
  | .circular => (.error .circularRef, s)
  | .pipelineFail => (.error .saveFailed, s)
  | .quota =>
    let s1 : VaultState V := { s with isCleaningUp := true }
    match cleanupGuarded cfg now s1 with
    | (.error _, s2) => (.error .quotaExceeded, { s2 with isCleaningUp := false })
    | (.ok _, s2) =>
      let (fresh, s3) := getAllData cfg s2
      match cfg.codec.stringify fresh with
      | none => (.error .quotaExceeded, { s3 with isCleaningUp := false })
      | some str =>
        match chainApplyLinks cfg.links str with
        | none => (.error .quotaExceeded, { s3 with isCleaningUp := false })
        | some out =>
          let (ok, b2) := s3.backend.write out
          if ok then (.ok (), { s3 with backend := b2, isCleaningUp := false })
          else (.error .quotaExceeded, { s3 with backend := b2, isCleaningUp := false })

/-- `saveAllDataImmediate` (storage-vault.ts lines 229-255): the raw save with
errors dispatched to `handleSaveError`, whose quota branch depends on the
reentrancy flag. -/
def saveAllDataImmediate {V : Type} (cfg : VaultConfig V) (data : DataRecord V)
    (now : Time) (s : VaultState V) : Except VaultError Unit × VaultState V :=
  match saveImmediateRaw cfg data s with
  | (none, s2) => (.ok (), s2)
  | (some e, s2) =>
    if s2.isCleaningUp then (.error (handleSaveErrorGuarded e), s2)
    else handleSaveErrorTop cfg e now s2

/-- `saveAllData` (storage-vault.ts lines 297-321): with a positive debounce the
mutated record becomes the dirty buffer and the flush timer is (re)scheduled,
cancelling any prior one; with debounce zero the write is immediate. -/
def saveAllData {V : Type} (cfg : VaultConfig V) (data : DataRecord V)
    (now : Time) (s : VaultState V) : Except VaultError Unit × VaultState V :=
  if cfg.debounceMs > 0 then
    (.ok (), { s with dirty := some data, pendingTimer := true })
  else
    saveAllDataImmediate cfg data now s

/-- The scheduled flush callback (the `setTimeout` body in `saveAllData`): write
the dirty buffer if present, clearing it only on success (a failed write keeps
it so a later flush can retry), and clear the timer handle. -/
def fireTimer {V : Type} (cfg : VaultConfig V) (now : Time) (s : VaultState V) :
    VaultState V :=
  if !s.pendingTimer then s
  else
    match s.dirty with
    | none => { s with pendingTimer := false }
    | some d =>
      match saveAllDataImmediate cfg d now s with
      | (.ok _, s2) => { s2 with dirty := none, pendingTimer := false }
      | (.error _, s2) => { s2 with pendingTimer := false }

/-- `flush` (storage-vault.ts lines 588-598): cancel the timer and write the
dirty buffer immediately; an error propagates and the buffer is retained. -/
def flush {V : Type} (cfg : VaultConfig V) (now : Time) (s : VaultState V) :
    Except VaultError Unit × VaultState V :=
  let s1 : VaultState V := { s with pendingTimer := false }
  match s1.dirty with
  | none => (.ok (), s1)
  | some d =>
    match saveAllDataImmediate cfg d now s1 with
    | (.ok _, s2) => (.ok (), { s2 with dirty := none })
    | (.error e, s2) => (.error e, s2)

/-- `removeItem` (storage-vault.ts lines 478-489): validate the key, then delete
and save when the key is physically present (`key in data` — no expiry check). -/
def removeItem {V : Type} (cfg : VaultConfig V) (key : String) (now : Time)
    (s : VaultState V) : Except VaultError Bool × VaultState V :=
  match validateKey key s.backend.available with
  | some err => (.error err, s)
  | none =>
    let (data, s1) := getAllData cfg s
    if recordHasKey data key then
      let data2 := recordDelete data key
      match saveAllData cfg data2 now s1 with
      | (.ok _, s2) => (.ok true, s2)
      | (.error e, s2) => (.error e, s2)
    else (.ok false, s1)

/-- `setItem` (storage-vault.ts lines 382-399): validate key and TTL, delegate
`ttl === 0` to `removeItem`, else merge the item (expiry `now + ttl`, or none
when ttl is absent) and save. -/
def setItem {V : Type} (cfg : VaultConfig V) (key : String) (value : V)
    (ttl : Option JsNum) (now : Time) (s : VaultState V) :
    Except VaultError Bool × VaultState V :=
  match validateKey key s.backend.available with
  | some err => (.error err, s)
  | none =>
    match ttl with
    | some t =>
      if !t.isFinite || t.isNeg then (.error .invalidTTL, s)
      else if t = .fin 0 then removeItem cfg key now s
      else
        let (data, s1) := getAllData cfg s
        let expiry : Option Time := match t with | .fin v => some (now + v) | _ => none
        match saveAllData cfg (recordSet data key ⟨value, expiry⟩) now s1 with
        | (.ok _, s2) => (.ok true, s2)
        | (.error e, s2) => (.error e, s2)
    | none =>
      let (data, s1) := getAllData cfg s
      match saveAllData cfg (recordSet data key ⟨value, none⟩) now s1 with
      | (.ok _, s2) => (.ok true, s2)
      | (.error e, s2) => (.error e, s2)

/-- `getItem` (storage-vault.ts lines 404-420), with `removeIfExpired` inlined
at its only reachable branch (the item is known present): an expired item is
deleted, the purge saved, and absence reported. -/
def getItem {V : Type} (cfg : VaultConfig V) (key : String) (now : Time)
    (s : VaultState V) : Except VaultError (Option V) × VaultState V :=
  match validateKey key s.backend.available with
  | some err => (.error err, s)
  | none =>
    let (data, s1) := getAllData cfg s
    match recordGet data key with
    | none => (.ok none, s1)
    | some item =>
      if isExpired now item.expiry then
        match saveAllData cfg (recordDelete data key) now s1 with
        | (.ok _, s2) => (.ok none, s2)
        | (.error e, s2) => (.error e, s2)
      else (.ok (some item.value), s1)

/-- `updateItem` (storage-vault.ts lines 425-443): replace the value, keep the
expiry; false when absent or expired (purging the expired entry). -/
def updateItem {V : Type} (cfg : VaultConfig V) (key : String) (newValue : V)
    (now : Time) (s : VaultState V) : Except VaultError Bool × VaultState V :=
  match validateKey key s.backend.available with
  | some err => (.error err, s)
  | none =>
    let (data, s1) := getAllData cfg s
    match recordGet data key with
    | none => (.ok false, s1)
    | some item =>
      if isExpired now item.expiry then
        match saveAllData cfg (recordDelete data key) now s1 with
        | (.ok _, s2) => (.ok false, s2)
        | (.error e, s2) => (.error e, s2)
      else
        match saveAllData cfg (recordSet data key ⟨newValue, item.expiry⟩) now s1 with
        | (.ok _, s2) => (.ok true, s2)
        | (.error e, s2) => (.error e, s2)

/-- `extendTTL` (storage-vault.ts lines 448-473): requires a positive finite
delta; extends an existing expiry by the delta, or starts one at `now + delta`
for an item with no expiry. -/
def extendTTL {V : Type} (cfg : VaultConfig V) (key : String)
    (additionalTTL : JsNum) (now : Time) (s : VaultState V) :
    Except VaultError Bool × VaultState V :=
  match validateKey key s.backend.available with
  | some err => (.error err, s)
  | none =>
    if !additionalTTL.isFinite || additionalTTL.isNonPos then
      (.error .invalidAdditionalTTL, s)
    else
      let (data, s1) := getAllData cfg s
      match recordGet data key with
      | none => (.ok false, s1)
      | some item =>
        if isExpired now item.expiry then
          match saveAllData cfg (recordDelete data key) now s1 with
          | (.ok _, s2) => (.ok false, s2)
          | (.error e, s2) => (.error e, s2)
        else
          let delta : Int := match additionalTTL with | .fin v => v | _ => 0
          let newExpiry : Option Time :=
            match item.expiry with
            | some e => some (e + delta)
            | none => some (now + delta)
          match saveAllData cfg (recordSet data key ⟨item.value, newExpiry⟩) now s1 with
          | (.ok _, s2) => (.ok true, s2)
          | (.error e, s2) => (.error e, s2)

/-- `hasItem` (storage-vault.ts lines 518-534): expiry-aware existence check,
purging an expired entry. -/
def hasItem {V : Type} (cfg : VaultConfig V) (key : String) (now : Time)
    (s : VaultState V) : Except VaultError Bool × VaultState V :=
  match validateKey key s.backend.available with
  | some err => (.error err, s)
  | none =>
    let (data, s1) := getAllData cfg s
    match recordGet data key with
    | none => (.ok false, s1)
    | some item =>
      if isExpired now item.expiry then
        match saveAllData cfg (recordDelete data key) now s1 with
        | (.ok _, s2) => (.ok false, s2)
        | (.error e, s2) => (.error e, s2)
      else (.ok true, s1)

/-- `getRemainingTTL` (storage-vault.ts lines 539-556).  Note: unlike every
other keyed operation it performs no `validateKey` call — it only probes
`isAvailable()`, answering null instead of throwing. -/
def getRemainingTTL {V : Type} (cfg : VaultConfig V) (key : String) (now : Time)
    (s : VaultState V) : Except VaultError (Option Int) × VaultState V :=
  if !s.backend.available then (.ok none, s)
  else
    let (data, s1) := getAllData cfg s
    match recordGet data key with
    | none => (.ok none, s1)
    | some item =>
      match item.expiry with
      | none => (.ok none, s1)
      | some exp =>
        let remaining := exp - now
        if remaining ≤ 0 then
          match saveAllData cfg (recordDelete data key) now s1 with
          | (.ok _, s2) => (.ok none, s2)
          | (.error e, s2) => (.error e, s2)
        else (.ok (some remaining), s1)

/-- The public `cleanupExpiredItems` (entered with the reentrancy flag in
whatever state it is; its inner save dispatches through the full
`handleSaveError`). -/
def cleanupExpiredItems {V : Type} (cfg : VaultConfig V) (now : Time)
    (s : VaultState V) : Except VaultError Nat × VaultState V :=
  if !s.backend.available then (.ok 0, s)
  else
    let (data, s2) := getAllData cfg s
    let n := (data.filter (cleanupCond now)).length
    let data2 := data.filter (fun e => !cleanupCond now e)
    if n > 0 then
      match saveAllDataImmediate cfg data2 now s2 with
      | (.ok _, s3) => (.ok n, s3)
      | (.error err, s3) => (.error err, s3)
    else (.ok n, s2)

/-- The inclusion condition of `getAllKeys`/`getAll`:
`expiry === null || now <= expiry`. -/
def liveCond {V : Type} (now : Time) (e : String × StoredData V) : Bool :=
  match e.2.expiry with
  | none => true
  | some t => now ≤ t

/-- `getAllKeys` (storage-vault.ts lines 603-620): the keys of the non-expired
entries; a read-only sweep that never throws and never purges. -/
def getAllKeys {V : Type} (cfg : VaultConfig V) (now : Time) (s : VaultState V) :
    List String × VaultState V :=
  if !s.backend.available then ([], s)
  else
    let (data, s1) := getAllData cfg s
    ((data.filter (liveCond now)).map Prod.fst, s1)

/-- `getAll` (storage-vault.ts lines 625-642): the non-expired entries as a
key-value map. -/
def getAll {V : Type} (cfg : VaultConfig V) (now : Time) (s : VaultState V) :
    List (String × V) × VaultState V :=
  if !s.backend.available then ([], s)
  else
    let (data, s1) := getAllData cfg s
    ((data.filter (liveCond now)).map (fun e => (e.1, e.2.value)), s1)

/-- `clear` (storage-vault.ts lines 494-513): fails loudly when unavailable;
cancels the pending timer, drops the dirty buffer and removes the vault key. -/
def clear {V : Type} (s : VaultState V) : Except VaultError Bool × VaultState V :=
  if !s.backend.available then (.error .storageUnavailable, s)
  else
    (.ok true, { s with pendingTimer := false, dirty := none,
                        backend := s.backend.removeKey })

/-!
Object-identity model of `getAllData`'s dirty-buffer branch.  The value-level
model above cannot distinguish "returns the buffer itself" from "returns a
copy", so references are made explicit: the heap is a list of record objects
addressed by index, and the engine's dirty buffer is an address into it.
-/

/-- A heap of record objects plus the engine fields `getAllData` consults. -/
structure HeapState (V : Type) where
  available : Bool
  heap : List (DataRecord V)
  dirtyRef : Option Nat

/-- Dereference an object address. -/
def heapGet {V : Type} (s : HeapState V) (r : Nat) : DataRecord V :=
  s.heap.getD r []

/-- Allocate a fresh object holding `d`, returning its (fresh) address. -/
def heapAlloc {V : Type} (s : HeapState V) (d : DataRecord V) :
    Nat × HeapState V :=
  (s.heap.length, { s with heap := s.heap ++ [d] })

/-- `getAllData` of the current vault (storage-vault.ts lines 191-198) at the
object level: null storage yields a fresh empty object; a non-null dirty buffer
is returned as `{ ...this.dirtyData }` — a freshly allocated shallow copy.
`backendRecord` stands for whatever record the backend-read branch would
produce (always freshly allocated, since `JSON.parse` builds a new object). -/
def getAllDataRefCurrent {V : Type} (s : HeapState V)
    (backendRecord : DataRecord V) : Nat × HeapState V :=
  if !s.available then heapAlloc s []
  else
    match s.dirtyRef with
    | some r => heapAlloc s (heapGet s r)
    | none => heapAlloc s backendRecord

/-- `getAllData` of the legacy parallel implementation (core/vault.ts lines
154-161): `Object.freeze(this.dirtyData ?? {})` — `Object.freeze` returns its
argument, so the dirty branch hands back the internal buffer's own reference. -/
def getAllDataRefLegacy {V : Type} (s : HeapState V)
    (backendRecord : DataRecord V) : Nat × HeapState V :=
  if !s.available then heapAlloc s []
  else
    match s.dirtyRef with
    | some r => (r, s)
    | none => heapAlloc s backendRecord

/-- A caller mutating the object at address `r` (e.g. assigning a key on the
record `getAllData` returned). -/
def heapWrite {V : Type} (s : HeapState V) (r : Nat) (d : DataRecord V) :
    HeapState V :=
  { s with heap := s.heap.set r d }

/-!
Concrete fixtures used by the closed counterexample/exhibit theorems and by the
witnesses of the universally quantified theorems.
-/

/-- A pass-through transform link (e.g. the logging handler, which forwards the
data unchanged). -/
def idLink : TransformLink where
  forward := fun s => some s
  backward := fun s => some s

/-- A record holding one expired item (`old`, expiry 10) and one live item. -/
def dOld : DataRecord Unit := [("old", ⟨(), some 10⟩), ("live", ⟨(), none⟩)]

/-- `dOld` after the expired-item cleanup. -/
def dOldClean : DataRecord Unit := [("live", ⟨(), none⟩)]

/-- `dOld` after `setItem` merged the new key `k`. -/
def dWithK : DataRecord Unit :=
  [("old", ⟨(), some 10⟩), ("live", ⟨(), none⟩), ("k", ⟨(), none⟩)]

/-- A JSON collaborator fixed on the three records of the quota scenario (JSON
round-trips plain records, so `parse` inverts `stringify` on them). -/
def codecC2 : JsonCodec Unit where
  stringify := fun d =>
    if d = dWithK then some "s1"
    else if d = dOldClean then some "s2"
    else if d = dOld then some "s0"
    else none
  parse := fun s =>
    if s = "s0" then some (.record dOld)
    else if s = "s2" then some (.record dOldClean)
    else none

/-- Quota scenario configuration: no debounce, no transforms. -/
def cfgC2 : VaultConfig Unit where
  debounceMs := 0
  maxItemsInMemory := 1000
  links := []
  codec := codecC2

/-- Quota scenario state: a web store holding the encoding of `dOld`, throwing
quota on the first write attempt only. -/
def stateC2 : VaultState Unit where
  backend :=
    { kind := .browserLocal
      available := true
      content := some "s0"
      writeLog := []
      attempts := 0
      quotaAt := fun n => n == 0 }
  dirty := none
  pendingTimer := false
  isCleaningUp := false

/-- A codec whose `stringify` is a constant encoding and whose `parse` always
throws; enough for scenarios that never decode. -/
def codecConst (V : Type) : JsonCodec V where
  stringify := fun _ => some "enc"
  parse := fun _ => none

/-- A debounced engine configuration over an always-succeeding store. -/
def cfgDeb : VaultConfig Nat where
  debounceMs := 100
  maxItemsInMemory := 1000
  links := []
  codec := codecConst Nat

/-- An available web store with nothing stored and no quota faults. -/
def cleanBackend : Backend where
  kind := .browserLocal
  available := true
  content := none
  writeLog := []
  attempts := 0
  quotaAt := fun _ => false

/-- Fresh engine state over `cleanBackend`. -/
def stateClean : VaultState Nat where
  backend := cleanBackend
  dirty := none
  pendingTimer := false
  isCleaningUp := false

/-- Engine state whose backend holds text that fails to parse. -/
def stateGarbage : VaultState Nat where
  backend := { cleanBackend with content := some "garbage" }
  dirty := none
  pendingTimer := false
  isCleaningUp := false

/-- Engine state whose dirty buffer holds one item expired at time 10. -/
def stateExpired : VaultState Nat where
  backend := cleanBackend
  dirty := some [("k", ⟨7, some 10⟩)]
  pendingTimer := true
  isCleaningUp := false

/-- Eviction scenario configuration: ephemeral map backend limited to 2 items. -/
def cfgEvict : VaultConfig Nat where
  debounceMs := 0
  maxItemsInMemory := 2
  links := []
  codec := codecConst Nat

/-- Eviction scenario state: an available in-memory map store. -/
def stateEvict : VaultState Nat where
  backend :=
    { kind := .inMemory
      available := true
      content := none
      writeLog := []
      attempts := 0
      quotaAt := fun _ => false }
  dirty := none
  pendingTimer := false
  isCleaningUp := false

/-- Four staggered-expiry items over a limit of 2: `a` at 50, `b` never
expiring, `c` at 10, `d` at 30. -/
def dFour : DataRecord Nat :=
  [("a", ⟨1, some 50⟩), ("b", ⟨2, none⟩), ("c", ⟨3, some 10⟩), ("d", ⟨4, some 30⟩)]

/-- A one-object heap whose single record is the engine's dirty buffer. -/
def heapFixture : HeapState Nat where
  available := true
  heap := [[("a", ⟨1, none⟩)]]
  dirtyRef := some 0

/-!  Helper lemmas about the record operations and `getAllData`. -/

theorem recordGet_recordSet_self {V : Type} (d : DataRecord V) (k : String)
    (it : StoredData V) : recordGet (recordSet d k it) k = some it := by
  induction d with
  | nil => simp [recordGet, recordSet]
  | cons e rest ih =>
    obtain ⟨k2, it2⟩ := e
    by_cases h : k2 = k <;> simp [recordGet, recordSet, h, ih]

theorem recordGet_recordDelete_self {V : Type} (d : DataRecord V) (k : String) :
    recordGet (recordDelete d k) k = none := by
  induction d with
  | nil => simp [recordGet, recordDelete]
  | cons e rest ih =>
    obtain ⟨k2, it2⟩ := e
    by_cases h : k2 = k
    · simpa [recordDelete, h] using ih
    · simpa [recordDelete, recordGet, h] using ih

theorem recordGet_isSome_of_get {V : Type} {d : DataRecord V} {k : String}
    {it : StoredData V} (h : recordGet d k = some it) :
    recordHasKey d k = true := by
  simp [recordHasKey, h]

theorem clearCorrupted_fields {V : Type} (s : VaultState V) :
    (clearCorrupted s).backend.kind = s.backend.kind ∧
    (clearCorrupted s).backend.available = s.backend.available ∧
    (clearCorrupted s).backend.writeLog = s.backend.writeLog ∧
    (clearCorrupted s).backend.attempts = s.backend.attempts ∧
    (clearCorrupted s).backend.quotaAt = s.backend.quotaAt ∧
    (clearCorrupted s).dirty = s.dirty ∧
    (clearCorrupted s).pendingTimer = s.pendingTimer ∧
    (clearCorrupted s).isCleaningUp = s.isCleaningUp := by
  unfold clearCorrupted Backend.removeKey
  split <;> simp

theorem getAllData_snd_cases {V : Type} (cfg : VaultConfig V) (s : VaultState V) :
    (getAllData cfg s).2 = s ∨ (getAllData cfg s).2 = clearCorrupted s := by
  unfold getAllData
  split
  · exact Or.inl rfl
  · split
    · exact Or.inl rfl
    · split
      · exact Or.inl rfl
      · split
        · exact Or.inl rfl
        · split
          · exact Or.inr rfl
          · split
            · exact Or.inl rfl
            · exact Or.inr rfl
            · exact Or.inr rfl

theorem getAllData_available {V : Type} (cfg : VaultConfig V) (s : VaultState V) :
    ((getAllData cfg s).2).backend.available = s.backend.available := by
  rcases getAllData_snd_cases cfg s with h | h <;> rw [h]
  exact (clearCorrupted_fields s).2.1

theorem getAllData_writeLog {V : Type} (cfg : VaultConfig V) (s : VaultState V) :
    ((getAllData cfg s).2).backend.writeLog = s.backend.writeLog := by
  rcases getAllData_snd_cases cfg s with h | h <;> rw [h]
  exact (clearCorrupted_fields s).2.2.1

theorem getAllData_attempts {V : Type} (cfg : VaultConfig V) (s : VaultState V) :
    ((getAllData cfg s).2).backend.attempts = s.backend.attempts := by
  rcases getAllData_snd_cases cfg s with h | h <;> rw [h]
  exact (clearCorrupted_fields s).2.2.2.1

theorem getAllData_kind {V : Type} (cfg : VaultConfig V) (s : VaultState V) :
    ((getAllData cfg s).2).backend.kind = s.backend.kind := by
  rcases getAllData_snd_cases cfg s with h | h <;> rw [h]
  exact (clearCorrupted_fields s).1

theorem getAllData_quotaAt {V : Type} (cfg : VaultConfig V) (s : VaultState V) :
    ((getAllData cfg s).2).backend.quotaAt = s.backend.quotaAt := by
  rcases getAllData_snd_cases cfg s with h | h <;> rw [h]
  exact (clearCorrupted_fields s).2.2.2.2.1

theorem getAllData_dirty {V : Type} (cfg : VaultConfig V) (s : VaultState V) :
    ((getAllData cfg s).2).dirty = s.dirty := by
  rcases getAllData_snd_cases cfg s with h | h <;> rw [h]
  exact (clearCorrupted_fields s).2.2.2.2.2.1

theorem getAllData_cleaning {V : Type} (cfg : VaultConfig V) (s : VaultState V) :
    ((getAllData cfg s).2).isCleaningUp = s.isCleaningUp := by
  rcases getAllData_snd_cases cfg s with h | h <;> rw [h]
  exact (clearCorrupted_fields s).2.2.2.2.2.2.2

theorem getAllData_dirty_some {V : Type} (cfg : VaultConfig V) {s : VaultState V}
    {d : DataRecord V} (hav : s.backend.available = true)
    (hd : s.dirty = some d) : getAllData cfg s = (d, s) := by
  unfold getAllData
  rw [hav, hd]
  simp

theorem getAllData_of_clearCorrupted {V : Type} (cfg : VaultConfig V)
    {s : VaultState V} (hav : s.backend.available = true)
    (hd : s.dirty = none) :
    getAllData cfg (clearCorrupted s) = ([], clearCorrupted s) := by
  unfold getAllData clearCorrupted Backend.removeKey Backend.read
  simp [hav, hd]

theorem getAllData_idem {V : Type} (cfg : VaultConfig V) (s : VaultState V) :
    getAllData cfg ((getAllData cfg s).2) =
      ((getAllData cfg s).1, (getAllData cfg s).2) := by
  by_cases hav : s.backend.available = true
  · cases hd : s.dirty with
    | some d =>
      rw [getAllData_dirty_some cfg hav hd]
      exact getAllData_dirty_some cfg hav hd
    | none =>
      cases hc : s.backend.content with
      | none =>
        have h1 : getAllData cfg s = ([], s) := by
          unfold getAllData Backend.read
          simp [hav, hd, hc]
        rw [h1]
        exact h1
      | some raw =>
        by_cases hraw : raw = ""
        · have h1 : getAllData cfg s = ([], s) := by
            unfold getAllData Backend.read
            simp [hav, hd, hc, hraw]
          rw [h1]
          exact h1
        · cases hrev : chainReverseLinks cfg.links raw with
          | none =>
            have h1 : getAllData cfg s = ([], clearCorrupted s) := by
              unfold getAllData Backend.read
              simp [hav, hd, hc, hraw, hrev]
            rw [h1]
            exact getAllData_of_clearCorrupted cfg hav hd
          | some str =>
            cases hp : cfg.codec.parse str with
            | none =>
              have h1 : getAllData cfg s = ([], clearCorrupted s) := by
                unfold getAllData Backend.read
                simp [hav, hd, hc, hraw, hrev, hp]
              rw [h1]
              exact getAllData_of_clearCorrupted cfg hav hd
            | some pj =>
              cases pj with
              | record d =>
                have h1 : getAllData cfg s = (d, s) := by
                  unfold getAllData Backend.read
                  simp [hav, hd, hc, hraw, hrev, hp]
                rw [h1]
                exact h1
              | invalid =>
                have h1 : getAllData cfg s = ([], clearCorrupted s) := by
                  unfold getAllData Backend.read
                  simp [hav, hd, hc, hraw, hrev, hp]
                rw [h1]
                exact getAllData_of_clearCorrupted cfg hav hd
  · have hav2 : s.backend.available = false := by
      revert hav
      cases s.backend.available <;> simp
    have h1 : getAllData cfg s = ([], s) := by
      unfold getAllData
      rw [hav2]
      simp
    rw [h1]
    exact h1

theorem saveImmediateRaw_success {V : Type} (cfg : VaultConfig V)
    (data : DataRecord V) (s : VaultState V)
    (hav : s.backend.available = true)
    (hlim : s.backend.kind = .inMemory → ¬ data.length > cfg.maxItemsInMemory)
    (str out : String)
    (hstr : cfg.codec.stringify data = some str)
    (happ : chainApplyLinks cfg.links str = some out)
    (hq : s.backend.kind ≠ .inMemory →
      s.backend.quotaAt s.backend.attempts = false) :
    saveImmediateRaw cfg data s =
      (none, { s with backend := writtenBackend s.backend out }) := by
  unfold saveImmediateRaw Backend.write writtenBackend
  have hcond : (s.backend.kind == StorageKind.inMemory &&
      decide (data.length > cfg.maxItemsInMemory)) = false := by
    by_cases hk : s.backend.kind = .inMemory
    · simp [hk, hlim hk]
    · simp [hk]
  have hw : (s.backend.kind != StorageKind.inMemory &&
      s.backend.quotaAt s.backend.attempts) = false := by
    by_cases hk : s.backend.kind = .inMemory
    · simp [hk]
    · simp [hk, hq hk]
  simp [hav, hcond, hw, hstr, happ]

theorem saveAllDataImmediate_of_raw_none {V : Type} (cfg : VaultConfig V)
    (data : DataRecord V) (now : Time) {s s2 : VaultState V}
    (h : saveImmediateRaw cfg data s = (none, s2)) :
    saveAllDataImmediate cfg data now s = (.ok (), s2) := by
  unfold saveAllDataImmediate
  rw [h]

theorem fireTimer_success {V : Type} (cfg : VaultConfig V) (now : Time)
    {s : VaultState V} (d : DataRecord V) {s2 : VaultState V}
    (hp : s.pendingTimer = true) (hd : s.dirty = some d)
    (hsv : saveAllDataImmediate cfg d now s = (.ok (), s2)) :
    fireTimer cfg now s = { s2 with dirty := none, pendingTimer := false } := by
  unfold fireTimer
  simp only [hp, hd, hsv, Bool.not_true, Bool.false_eq_true, if_false]

theorem setItem_debounced {V : Type} (cfg : VaultConfig V) (k : String) (v : V)
    (now : Time) (s : VaultState V) (hdeb : cfg.debounceMs > 0)
    (hkey : validateKey k s.backend.available = none) :
    setItem cfg k v none now s =
      (.ok true, { (getAllData cfg s).2 with
                   dirty := some (recordSet (getAllData cfg s).1 k ⟨v, none⟩),
                   pendingTimer := true }) := by
  unfold setItem saveAllData
  rw [hkey]
  simp [hdeb]

/-- C1: with debounce > 0, two successive writes to the same key coalesce: the
second value is read back before any flush, no backend write happens until the
scheduled flush fires, and the flush issues exactly one write whose content
encodes the record set holding the latest value only. -/
theorem debounced_writes_coalesce_read_your_write {V : Type}
    (cfg : VaultConfig V) (s : VaultState V) (k : String) (v1 v2 : V)
    (t1 t2 t3 t4 : Time)
    (hdeb : cfg.debounceMs > 0)
    (hav : s.backend.available = true)
    (hkey : validateKey k true = none)
    (d0 : DataRecord V) (s0 : VaultState V)
    (hD0 : getAllData cfg s = (d0, s0))
    (d2 : DataRecord V)
    (hD2 : recordSet (recordSet d0 k ⟨v1, none⟩) k ⟨v2, none⟩ = d2)
    (str out : String)
    (hstr : cfg.codec.stringify d2 = some str)
    (happ : chainApplyLinks cfg.links str = some out)
    (hq : s.backend.kind ≠ .inMemory →
      s.backend.quotaAt s.backend.attempts = false)
    (hlim : s.backend.kind = .inMemory →
      ¬ d2.length > cfg.maxItemsInMemory) :
    ∃ s1 s2 : VaultState V,
      setItem cfg k v1 none t1 s = (.ok true, s1) ∧
      setItem cfg k v2 none t2 s1 = (.ok true, s2) ∧
      (getItem cfg k t3 s2).1 = .ok (some v2) ∧
      s2.dirty = some d2 ∧
      recordGet d2 k = some ⟨v2, none⟩ ∧
      s2.backend.writeLog = s.backend.writeLog ∧
      (fireTimer cfg t4 s2).backend.writeLog = s.backend.writeLog ++ [out] ∧
      (fireTimer cfg t4 s2).backend.content = some out ∧
      (fireTimer cfg t4 s2).dirty = none := by
  have hs0 : s0 = (getAllData cfg s).2 := by rw [hD0]
  have hav0 : s0.backend.available = true := by
    rw [hs0, getAllData_available]; exact hav
  have hwl0 : s0.backend.writeLog = s.backend.writeLog := by
    rw [hs0, getAllData_writeLog]
  have hat0 : s0.backend.attempts = s.backend.attempts := by
    rw [hs0, getAllData_attempts]
  have hkd0 : s0.backend.kind = s.backend.kind := by
    rw [hs0, getAllData_kind]
  have hqa0 : s0.backend.quotaAt = s.backend.quotaAt := by
    rw [hs0, getAllData_quotaAt]
  have hkey0 : validateKey k s.backend.available = none := by
    rw [hav]; exact hkey
  have hkeyS0 : validateKey k s0.backend.available = none := by
    rw [hav0]; exact hkey
  have hget : recordGet d2 k = some ⟨v2, none⟩ := by
    rw [← hD2]; exact recordGet_recordSet_self _ k _
  have hsave : saveImmediateRaw cfg d2 { s0 with dirty := some d2, pendingTimer := true } = (none, { s0 with dirty := some d2, pendingTimer := true, backend := writtenBackend s0.backend out }) := by
    refine saveImmediateRaw_success cfg d2 { s0 with dirty := some d2, pendingTimer := true } hav0 ?_ str out hstr happ ?_
    · intro hk
      have hk0 : s0.backend.kind = .inMemory := hk
      exact hlim (by rw [← hkd0]; exact hk0)
    · intro hk
      have hk0 : s0.backend.kind ≠ .inMemory := hk
      have hk1 : s.backend.kind ≠ .inMemory := by rw [← hkd0]; exact hk0
      show s0.backend.quotaAt s0.backend.attempts = false
      rw [hqa0, hat0]
      exact hq hk1
  have hfire : fireTimer cfg t4 { s0 with dirty := some d2, pendingTimer := true } = { s0 with dirty := none, pendingTimer := false, backend := writtenBackend s0.backend out } := by
    exact fireTimer_success cfg t4 d2 rfl rfl
      (saveAllDataImmediate_of_raw_none cfg d2 t4 hsave)
  refine ⟨{ s0 with dirty := some (recordSet d0 k ⟨v1, none⟩), pendingTimer := true }, { s0 with dirty := some d2, pendingTimer := true }, ?_, ?_, ?_, rfl, hget, hwl0, ?_, ?_, ?_⟩
  · rw [setItem_debounced cfg k v1 t1 s hdeb hkey0, hD0]
  · rw [setItem_debounced cfg k v2 t2 { s0 with dirty := some (recordSet d0 k ⟨v1, none⟩), pendingTimer := true } hdeb hkeyS0,
      @getAllData_dirty_some V cfg { s0 with dirty := some (recordSet d0 k ⟨v1, none⟩), pendingTimer := true } (recordSet d0 k ⟨v1, none⟩) hav0 rfl]
    show _ = (Except.ok true, ({ s0 with dirty := some d2, pendingTimer := true } : VaultState V))
    rw [← hD2]
  · unfold getItem
    have hg2 := @getAllData_dirty_some V cfg { s0 with dirty := some d2, pendingTimer := true } d2 hav0 rfl
    rw [show validateKey k ({ s0 with dirty := some d2, pendingTimer := true } : VaultState V).backend.available = none from hkeyS0]
    rw [hg2]
    simp [hget, isExpired]
  · rw [hfire]
    show s0.backend.writeLog ++ [out] = s.backend.writeLog ++ [out]
    rw [hwl0]
  · rw [hfire]
    rfl
  · rw [hfire]

/-- Witness for C1: a fresh debounced engine, key `k`, values 1 then 2. -/
theorem debounced_writes_coalesce_read_your_write_witness :
    cfgDeb.debounceMs > 0 ∧
    (∃ s1 s2 : VaultState Nat,
      setItem cfgDeb "k" 1 none 0 stateClean = (.ok true, s1) ∧
      setItem cfgDeb "k" 2 none 0 s1 = (.ok true, s2) ∧
      (getItem cfgDeb "k" 0 s2).1 = .ok (some 2) ∧
      s2.dirty = some [("k", ⟨2, none⟩)] ∧
      recordGet [("k", (⟨2, none⟩ : StoredData Nat))] "k" = some ⟨2, none⟩ ∧
      s2.backend.writeLog = stateClean.backend.writeLog ∧
      (fireTimer cfgDeb 0 s2).backend.writeLog =
        stateClean.backend.writeLog ++ ["enc"] ∧
      (fireTimer cfgDeb 0 s2).backend.content = some "enc" ∧
      (fireTimer cfgDeb 0 s2).dirty = none) :=
  ⟨by decide,
   debounced_writes_coalesce_read_your_write cfgDeb stateClean "k" 1 2 0 0 0 0
     (by decide) rfl (by decide) [] stateClean rfl [("k", ⟨2, none⟩)] rfl
     "enc" "enc" rfl rfl (fun _ => rfl) (by decide)⟩

/-- C2: evaluating the quota-recovery path at its failing input.  The backend
holds `dOld` (one expired item, one live item) and throws quota on the first
write only; the engine runs without debounce.  `setItem "k"` reports success,
yet the final persisted record is `dOldClean` — the expired item was cleaned
up, but the newly written key `k` is NOT in it: the unflushed mutation was
dropped silently, contradicting "the newly written value v is persisted".
(The retry in `handleSaveError` re-reads the record set from storage, which
never received the candidate data.) -/
theorem quota_recovery_drops_unflushed_value :
    (setItem cfgC2 "k" () none 100 stateC2).1 = .ok true ∧
    (setItem cfgC2 "k" () none 100 stateC2).2.backend.content = some "s2" ∧
    (setItem cfgC2 "k" () none 100 stateC2).2.backend.writeLog = ["s2", "s2"] ∧
    codecC2.parse "s2" = some (.record dOldClean) ∧
    recordGet dOldClean "k" = none ∧
    recordGet dOldClean "old" = none ∧
    recordSet dOld "k" ⟨(), none⟩ = dWithK ∧
    recordGet dWithK "k" = some ⟨(), none⟩ :=
  ⟨rfl, rfl, rfl, rfl, rfl, rfl, rfl, rfl⟩

theorem recordGet_of_mem_nodup {V : Type} {d : DataRecord V} {k : String}
    {it : StoredData V} (hnd : (d.map Prod.fst).Nodup) (hm : (k, it) ∈ d) :
    recordGet d k = some it := by
  induction d with
  | nil => cases hm
  | cons e rest ih =>
    obtain ⟨k2, it2⟩ := e
    rcases List.mem_cons.mp hm with h | h
    · obtain ⟨h1, h2⟩ := Prod.mk.injEq .. ▸ h
      simp [recordGet, h1.symm, h2]
    · have hk2 : k2 ≠ k := by
        intro hkk
        have : k ∈ rest.map Prod.fst :=
          List.mem_map.mpr ⟨(k, it), h, rfl⟩
        exact (List.nodup_cons.mp hnd).1 (hkk ▸ this)
      simp [recordGet, hk2]
      exact ih (List.nodup_cons.mp hnd).2 h

theorem getAllKeys_not_mem {V : Type} (cfg : VaultConfig V) (s : VaultState V)
    (k : String) (now : Time) {item : StoredData V}
    (hnodup : ((getAllData cfg s).1.map Prod.fst).Nodup)
    (hit : recordGet (getAllData cfg s).1 k = some item)
    (hdead : liveCond now (k, item) = false) :
    k ∉ (getAllKeys cfg now s).1 := by
  intro hmem
  unfold getAllKeys at hmem
  by_cases hav : s.backend.available = true
  · rw [hav] at hmem
    simp only [Bool.not_true, Bool.false_eq_true, if_false] at hmem
    obtain ⟨⟨k2, it2⟩, hmem2, hfst⟩ := List.mem_map.mp hmem
    obtain ⟨hin, hlive⟩ := List.mem_filter.mp hmem2
    subst hfst
    have hgot : recordGet (getAllData cfg s).1 k2 = some it2 :=
      recordGet_of_mem_nodup hnodup hin
    rw [hit] at hgot
    injection hgot with hgot
    rw [hgot] at hdead
    rw [hdead] at hlive
    cases hlive
  · have hav2 : s.backend.available = false := by
      revert hav; cases s.backend.available <;> simp
    rw [hav2] at hmem
    simp at hmem

/-- C3: when the backend holds text that fails transform reversal, JSON
decoding, or shape validation, every read degrades to "nothing stored" without
an error, the corrupted entry is removed, and a subsequent `setItem` succeeds. -/
theorem corruption_recovered_silently {V : Type}
    (cfg : VaultConfig V) (s : VaultState V) (now : Time)
    (hav : s.backend.available = true)
    (hdirty : s.dirty = none)
    (raw : String) (hc : s.backend.content = some raw) (hraw : raw ≠ "")
    (hbad : chainReverseLinks cfg.links raw = none ∨
      (∃ str, chainReverseLinks cfg.links raw = some str ∧
        (cfg.codec.parse str = none ∨ cfg.codec.parse str = some .invalid))) :
    getAllData cfg s = ([], clearCorrupted s) ∧
    (clearCorrupted s).backend.content = none ∧
    (getAllKeys cfg now s).1 = [] ∧
    (getAll cfg now s).1 = [] ∧
    (∀ k, validateKey k true = none → (getItem cfg k now s).1 = .ok none) ∧
    (∀ k v t1, validateKey k true = none → cfg.debounceMs > 0 →
      (setItem cfg k v none t1 ((getAllKeys cfg now s).2)).1 = .ok true) := by
  have hga : getAllData cfg s = ([], clearCorrupted s) := by
    unfold getAllData Backend.read
    rcases hbad with hrev | ⟨str, hrev, hp⟩
    · simp [hav, hdirty, hc, hraw, hrev]
    · rcases hp with hp | hp <;> simp [hav, hdirty, hc, hraw, hrev, hp]
  have hcontent : (clearCorrupted s).backend.content = none := by
    unfold clearCorrupted Backend.removeKey
    simp [hav]
  have hkeys : getAllKeys cfg now s = ([], clearCorrupted s) := by
    unfold getAllKeys
    rw [hav, hga]
    simp
  refine ⟨hga, hcontent, by rw [hkeys], ?_, ?_, ?_⟩
  · unfold getAll
    rw [hav, hga]
    simp
  · intro k hk
    have hk2 : validateKey k s.backend.available = none := by
      rw [hav]; exact hk
    unfold getItem
    rw [hk2, hga]
    simp [recordGet]
  · intro k v t1 hk hdeb
    rw [hkeys]
    have havC : (clearCorrupted s).backend.available = true := by
      rw [(clearCorrupted_fields s).2.1]; exact hav
    have hk2 : validateKey k (clearCorrupted s).backend.available = none := by
      rw [havC]; exact hk
    rw [setItem_debounced cfg k v t1 (clearCorrupted s) hdeb hk2]

/-- Witness for C3: literal garbage under the engine's key. -/
theorem corruption_recovered_silently_witness :
    stateGarbage.backend.content = some "garbage" ∧
    (getAllData cfgDeb stateGarbage = ([], clearCorrupted stateGarbage) ∧
    (clearCorrupted stateGarbage).backend.content = none ∧
    (getAllKeys cfgDeb 0 stateGarbage).1 = [] ∧
    (getAll cfgDeb 0 stateGarbage).1 = [] ∧
    (∀ k, validateKey k true = none →
      (getItem cfgDeb k 0 stateGarbage).1 = .ok none) ∧
    (∀ k v t1, validateKey k true = none → cfgDeb.debounceMs > 0 →
      (setItem cfgDeb k v none t1 ((getAllKeys cfgDeb 0 stateGarbage).2)).1 =
        .ok true)) :=
  ⟨rfl,
   corruption_recovered_silently cfgDeb stateGarbage 0 rfl rfl "garbage" rfl
     (by decide) (Or.inr ⟨"garbage", rfl, Or.inl rfl⟩)⟩

/-- C4: an item whose stored absolute expiry lies strictly in the past is
treated as absent by every read path while still physically present: `getItem`
absent, `hasItem` false, `getRemainingTTL` absent, and `getAllKeys` / `getAll`
exclude the key. -/
theorem expired_item_absent_all_read_paths {V : Type}
    (cfg : VaultConfig V) (s : VaultState V) (k : String) (now : Time)
    (hdeb : cfg.debounceMs > 0)
    (hav : s.backend.available = true)
    (hkey : validateKey k true = none)
    (item : StoredData V) (e : Time)
    (hit : recordGet (getAllData cfg s).1 k = some item)
    (hexp : item.expiry = some e) (hpast : e < now)
    (hnodup : ((getAllData cfg s).1.map Prod.fst).Nodup) :
    (getItem cfg k now s).1 = .ok none ∧
    (hasItem cfg k now s).1 = .ok false ∧
    (getRemainingTTL cfg k now s).1 = .ok none ∧
    k ∉ (getAllKeys cfg now s).1 ∧
    (∀ p ∈ (getAll cfg now s).1, p.1 ≠ k) := by
  have hkey2 : validateKey k s.backend.available = none := by
    rw [hav]; exact hkey
  have hexpd : isExpired now item.expiry = true := by
    rw [hexp]
    simp only [isExpired, decide_eq_true_eq]
    exact hpast
  have hnle : ¬ now ≤ e := not_le.mpr hpast
  rcases hG : getAllData cfg s with ⟨data, s1⟩
  have hit2 : recordGet data k = some item := by rw [hG] at hit; exact hit
  have hnodup2 : (data.map Prod.fst).Nodup := by rw [hG] at hnodup; exact hnodup
  refine ⟨?_, ?_, ?_, ?_, ?_⟩
  · unfold getItem
    rw [hkey2, hG]
    simp [hit2, hexpd, saveAllData, hdeb]
  · unfold hasItem
    rw [hkey2, hG]
    simp [hit2, hexpd, saveAllData, hdeb]
  · unfold getRemainingTTL
    rw [hav, hG]
    have hrem : e - now ≤ 0 := sub_nonpos.mpr (le_of_lt hpast)
    simp [hit2, hexp, hrem, saveAllData, hdeb]
  · refine @getAllKeys_not_mem V cfg s k now item ?_ ?_ ?_
    · rw [hG]; exact hnodup2
    · rw [hG]; exact hit2
    · simp [liveCond, hexp, hnle]
  · intro p hp hpk
    unfold getAll at hp
    rw [hav] at hp
    simp only [Bool.not_true, Bool.false_eq_true, if_false] at hp
    rw [hG] at hp
    obtain ⟨⟨k2, it2⟩, hm2, hpe⟩ := List.mem_map.mp hp
    obtain ⟨hin, hlive⟩ := List.mem_filter.mp hm2
    have hk2 : k2 = k := by rw [← hpe] at hpk; exact hpk
    subst hk2
    have hgot : recordGet data k2 = some it2 :=
      recordGet_of_mem_nodup hnodup2 hin
    rw [hit2] at hgot
    injection hgot with hgot
    rw [← hgot] at hlive
    revert hlive
    simp [liveCond, hexp, hnle]

/-- Witness for C4: the dirty buffer holds `k` expired at 10, read at time 50. -/
theorem expired_item_absent_all_read_paths_witness :
    recordGet (getAllData cfgDeb stateExpired).1 "k" = some ⟨7, some 10⟩ ∧
    ((getItem cfgDeb "k" 50 stateExpired).1 = .ok none ∧
    (hasItem cfgDeb "k" 50 stateExpired).1 = .ok false ∧
    (getRemainingTTL cfgDeb "k" 50 stateExpired).1 = .ok none ∧
    "k" ∉ (getAllKeys cfgDeb 50 stateExpired).1 ∧
    (∀ p ∈ (getAll cfgDeb 50 stateExpired).1, p.1 ≠ "k")) :=
  ⟨rfl,
   expired_item_absent_all_read_paths cfgDeb stateExpired "k" 50 (by decide)
     rfl (by decide) ⟨7, some 10⟩ 10 rfl rfl (by decide) (by decide)⟩

theorem chainBackwards_append (a b : List TransformLink) (s : String) :
    chainBackwards (a ++ b) s =
      match chainBackwards a s with
      | none => none
      | some t => chainBackwards b t := by
  induction a generalizing s with
  | nil => rfl
  | cons l ls ih =>
    show (match l.backward s with
          | none => none
          | some t => chainBackwards (ls ++ b) t) =
      match (match l.backward s with
             | none => none
             | some t => chainBackwards ls t) with
      | none => none
      | some t => chainBackwards b t
    cases hb : l.backward s with
    | none => rfl
    | some t => exact ih t

theorem chain_round_trip_aux (links : List TransformLink)
    (hinv : ∀ l ∈ links, ∀ s t, l.forward s = some t → l.backward t = some s) :
    ∀ x y, chainApplyLinks links x = some y → chainReverseLinks links y = some x := by
  induction links with
  | nil =>
    intro x y h
    injection h with h
    rw [← h]
    rfl
  | cons l ls ih =>
    intro x y h
    unfold chainApplyLinks at h
    cases hf : l.forward x with
    | none => rw [hf] at h; cases h
    | some t =>
      rw [hf] at h
      have hr : chainReverseLinks ls y = some t :=
        ih (fun l2 hm => hinv l2 (List.mem_cons_of_mem _ hm)) t y h
      show chainBackwards ((l :: ls).reverse) y = some x
      rw [List.reverse_cons, chainBackwards_append]
      have hr2 : chainBackwards ls.reverse y = some t := hr
      rw [hr2]
      show chainBackwards [l] t = some x
      have hb : l.backward t = some x := hinv l (List.mem_cons_self l ls) x t hf
      show (match l.backward t with
            | none => none
            | some u => chainBackwards [] u) = some x
      rw [hb]
      rfl

theorem foldl_bind_none (links : List TransformLink) :
    List.foldl (fun acc l => acc.bind l.forward) none links = none := by
  induction links with
  | nil => rfl
  | cons l ls ih => exact ih

theorem pipelineApply_eq_chain (links : List TransformLink) (s : String) :
    pipelineApply links s = chainApplyLinks links s := by
  induction links generalizing s with
  | nil => rfl
  | cons l ls ih =>
    show List.foldl (fun acc l => acc.bind l.forward) ((some s).bind l.forward) ls =
      chainApplyLinks (l :: ls) s
    rw [Option.some_bind]
    cases hf : l.forward s with
    | none =>
      rw [foldl_bind_none]
      show none = (match l.forward s with
        | none => none
        | some t => chainApplyLinks ls t)
      rw [hf]
    | some t =>
      rw [show List.foldl (fun acc l => acc.bind l.forward) (some t) ls =
        chainApplyLinks ls t from ih t]
      show chainApplyLinks ls t = (match l.forward s with
        | none => none
        | some u => chainApplyLinks ls u)
      rw [hf]

theorem pipelineReverse_eq_chain (links : List TransformLink) (s : String) :
    pipelineReverse links s = chainReverseLinks links s := by
  induction links generalizing s with
  | nil => rfl
  | cons l ls ih =>
    show (List.foldr (fun l acc => acc.bind l.backward) (some s) ls).bind l.backward =
      chainReverseLinks (l :: ls) s
    have h1 : List.foldr (fun l acc => acc.bind l.backward) (some s) ls =
        chainReverseLinks ls s := ih s
    rw [h1]
    show (chainBackwards ls.reverse s).bind l.backward =
      chainBackwards ((l :: ls).reverse) s
    rw [List.reverse_cons, chainBackwards_append]
    cases hcb : chainBackwards ls.reverse s with
    | none => rfl
    | some t =>
      show l.backward t = (match l.backward t with
        | none => none
        | some u => chainBackwards [] u)
      cases hb : l.backward t with
      | none => rfl
      | some u => rfl

/-- C5: for a pipeline of links whose backward functions invert their forward
functions, `reverse` undoes `apply` — in both the chain-of-responsibility
implementation (`TransformChain`) and the fold-based one (`TransformPipeline`)
— and the empty pipeline is the identity in both directions. -/
theorem pipeline_round_trip (links : List TransformLink)
    (hinv : ∀ l ∈ links, ∀ s t, l.forward s = some t → l.backward t = some s) :
    (∀ x y, chainApplyLinks links x = some y → chainReverseLinks links y = some x) ∧
    (∀ x y, pipelineApply links x = some y → pipelineReverse links y = some x) ∧
    (∀ x, chainApplyLinks ([] : List TransformLink) x = some x ∧
      chainReverseLinks ([] : List TransformLink) x = some x ∧
      pipelineApply ([] : List TransformLink) x = some x ∧
      pipelineReverse ([] : List TransformLink) x = some x) := by
  refine ⟨chain_round_trip_aux links hinv, ?_, ?_⟩
  · intro x y h
    rw [pipelineApply_eq_chain] at h
    rw [pipelineReverse_eq_chain]
    exact chain_round_trip_aux links hinv x y h
  · intro x
    exact ⟨rfl, rfl, rfl, rfl⟩

/-- C6 (amended): in the current vault implementation, `getAllData` on a state
with a non-null dirty buffer returns a freshly allocated shallow copy: the
returned reference differs from the internal buffer's, the contents coincide,
and a caller mutation through the returned reference leaves the buffer that
the pending flush timer will serialize unchanged.  (The legacy parallel
implementation instead returns the internal reference, frozen — see the
counterexample below.) -/
theorem getAllData_returns_fresh_copy_of_dirty {V : Type}
    (s : HeapState V) (backendRecord : DataRecord V) (r : Nat)
    (hav : s.available = true) (hd : s.dirtyRef = some r)
    (hr : r < s.heap.length) :
    (getAllDataRefCurrent s backendRecord).1 ≠ r ∧
    heapGet (getAllDataRefCurrent s backendRecord).2
      (getAllDataRefCurrent s backendRecord).1 = heapGet s r ∧
    (∀ m : DataRecord V,
      heapGet (heapWrite (getAllDataRefCurrent s backendRecord).2
        (getAllDataRefCurrent s backendRecord).1 m) r = heapGet s r) := by
  have hres : getAllDataRefCurrent s backendRecord =
      (s.heap.length, { s with heap := s.heap ++ [heapGet s r] }) := by
    unfold getAllDataRefCurrent heapAlloc
    rw [hav, hd]
    simp
  rw [hres]
  refine ⟨Nat.ne_of_gt hr, ?_, ?_⟩
  · show (s.heap ++ [heapGet s r]).getD s.heap.length [] = heapGet s r
    rw [List.getD_eq_getElem?_getD, List.getElem?_append_right (le_refl _)]
    simp
  · intro m
    show ((s.heap ++ [heapGet s r]).set s.heap.length m).getD r [] = heapGet s r
    rw [List.getD_eq_getElem?_getD, List.getElem?_set_ne (Nat.ne_of_gt hr),
      List.getElem?_append_left hr]
    show s.heap[r]?.getD [] = heapGet s r
    rw [heapGet, List.getD_eq_getElem?_getD]

/-- Witness for C6: a one-object heap whose record is the dirty buffer. -/
theorem getAllData_returns_fresh_copy_of_dirty_witness :
    heapFixture.dirtyRef = some 0 ∧ 0 < heapFixture.heap.length ∧
    ((getAllDataRefCurrent heapFixture []).1 ≠ 0 ∧
    heapGet (getAllDataRefCurrent heapFixture []).2
      (getAllDataRefCurrent heapFixture []).1 = heapGet heapFixture 0 ∧
    (∀ m : DataRecord Nat,
      heapGet (heapWrite (getAllDataRefCurrent heapFixture []).2
        (getAllDataRefCurrent heapFixture []).1 m) 0 = heapGet heapFixture 0)) :=
  ⟨rfl, by decide,
   getAllData_returns_fresh_copy_of_dirty heapFixture [] 0 rfl rfl (by decide)⟩

/-- C6 counterexample: the legacy implementation's `getAllData`
(`Object.freeze(this.dirtyData ?? {})`, core/vault.ts lines 154-161) returns
the internal dirty buffer's own reference, so the claim "getAllData ... never
[returns] the internal buffer's own object reference" is false of that cited
implementation (mutation through it is prevented by freezing, not by copying). -/
theorem legacy_getAllData_returns_internal_ref :
    heapFixture.dirtyRef = some 0 ∧
    (getAllDataRefLegacy heapFixture []).1 = 0 ∧
    (getAllDataRefLegacy heapFixture []).2 = heapFixture :=
  ⟨rfl, rfl, rfl⟩

/-- Witness for C5: a one-link pipeline (the pass-through link) at text `ab`. -/
theorem pipeline_round_trip_witness :
    chainApplyLinks [idLink] "ab" = some "ab" ∧
    chainReverseLinks [idLink] "ab" = some "ab" :=
  ⟨rfl,
   (pipeline_round_trip [idLink]
     (by
       intro l hm s t h
       rw [List.mem_singleton] at hm
       subst hm
       simp [idLink] at h ⊢
       exact h.symm)).1 "ab" "ab" rfl⟩

theorem getItem_absent {V : Type} (cfg : VaultConfig V) (k : String)
    (now : Time) {s s2 : VaultState V} {data : DataRecord V}
    (hkey : validateKey k s.backend.available = none)
    (hga : getAllData cfg s = (data, s2)) (habs : recordGet data k = none) :
    getItem cfg k now s = (.ok none, s2) := by
  unfold getItem
  rw [hkey, hga]
  simp [habs]

/-- C7 (amended): a non-finite or negative ttl is rejected with no state
change; `setItem` with ttl 0 literally returns `removeItem`'s outcome (true
only when the key was present) and the key reads back as absent afterwards;
for an absent ttl or a positive finite ttl, `setItem` returns true. -/
theorem setItem_ttl_semantics {V : Type} (cfg : VaultConfig V)
    (s : VaultState V) (k : String) (v : V) (now now2 : Time)
    (hdeb : cfg.debounceMs > 0)
    (hav : s.backend.available = true)
    (hkey : validateKey k true = none) :
    (∀ t : JsNum, t.isFinite = false ∨ t.isNeg = true →
      setItem cfg k v (some t) now s = (.error .invalidTTL, s)) ∧
    (setItem cfg k v (some (.fin 0)) now s = removeItem cfg k now s) ∧
    (getItem cfg k now2 ((setItem cfg k v (some (.fin 0)) now s).2)).1 =
      .ok none ∧
    (setItem cfg k v none now s).1 = .ok true ∧
    (∀ tv : Int, 0 < tv →
      (setItem cfg k v (some (.fin tv)) now s).1 = .ok true) := by
  have hkey2 : validateKey k s.backend.available = none := by
    rw [hav]; exact hkey
  have hzero : setItem cfg k v (some (.fin 0)) now s = removeItem cfg k now s := by
    unfold setItem
    rw [hkey2]
    simp [JsNum.isFinite, JsNum.isNeg]
  refine ⟨?_, hzero, ?_, ?_, ?_⟩
  · intro t ht
    unfold setItem
    rw [hkey2]
    rcases ht with h | h <;> simp [h]
  · rw [hzero]
    rcases hG : getAllData cfg s with ⟨data, s1⟩
    have hs1 : s1 = (getAllData cfg s).2 := by rw [hG]
    have hav1 : s1.backend.available = true := by
      rw [hs1, getAllData_available]; exact hav
    have hkeyS1 : validateKey k s1.backend.available = none := by
      rw [hav1]; exact hkey
    by_cases hhk : recordHasKey data k = true
    · have hrem : removeItem cfg k now s = (.ok true, { s1 with dirty := some (recordDelete data k), pendingTimer := true }) := by
        unfold removeItem saveAllData
        rw [hkey2, hG]
        simp [hhk, hdeb]
      rw [hrem]
      have hres := getItem_absent cfg k now2
        (s := { s1 with dirty := some (recordDelete data k), pendingTimer := true })
        hkeyS1
        (getAllData_dirty_some cfg hav1 rfl)
        (recordGet_recordDelete_self data k)
      rw [hres]
    · have hrem : removeItem cfg k now s = (.ok false, s1) := by
        unfold removeItem
        rw [hkey2, hG]
        simp [hhk]
      rw [hrem]
      have habs : recordGet data k = none := by
        revert hhk
        unfold recordHasKey
        cases recordGet data k <;> simp
      have hga1 : getAllData cfg s1 = (data, s1) := by
        rw [hs1, getAllData_idem, hG]
      have hres := getItem_absent cfg k now2 hkeyS1 hga1 habs
      rw [hres]
  · rw [setItem_debounced cfg k v now s hdeb hkey2]
  · intro tv htv
    unfold setItem
    rw [hkey2]
    have h2 : (JsNum.fin tv).isNeg = false := by
      simp [JsNum.isNeg]
      omega
    have h3 : JsNum.fin tv ≠ JsNum.fin 0 := by
      simp
      omega
    simp [JsNum.isFinite, h2, h3, saveAllData, hdeb]

/-- Witness for C7 (at an engine whose store already holds key `p`). -/
theorem setItem_ttl_semantics_witness :
    validateKey "p" true = none ∧
    ((∀ t : JsNum, t.isFinite = false ∨ t.isNeg = true →
      setItem cfgDeb "p" 9 (some t) 0 stateExpired =
        (.error .invalidTTL, stateExpired)) ∧
    (setItem cfgDeb "p" 9 (some (.fin 0)) 0 stateExpired =
      removeItem cfgDeb "p" 0 stateExpired) ∧
    (getItem cfgDeb "p" 0
      ((setItem cfgDeb "p" 9 (some (.fin 0)) 0 stateExpired).2)).1 = .ok none ∧
    (setItem cfgDeb "p" 9 none 0 stateExpired).1 = .ok true ∧
    (∀ tv : Int, 0 < tv →
      (setItem cfgDeb "p" 9 (some (.fin tv)) 0 stateExpired).1 = .ok true)) :=
  ⟨by decide,
   setItem_ttl_semantics cfgDeb stateExpired "p" 9 0 0 (by decide) rfl
     (by decide)⟩

/-- C7 counterexample: ttl 0 is a valid TTL argument (finite, non-negative)
and the key is valid, yet `setItem(k, v, 0)` returns false when the key is
absent — because it returns `removeItem(k)`'s result — contradicting "for
every valid key, arbitrary value, and valid TTL argument, setItem returns
true". -/
theorem setItem_ttl_zero_returns_false_on_absent_key :
    JsNum.isFinite (.fin 0) = true ∧ JsNum.isNeg (.fin 0) = false ∧
    validateKey "k" true = none ∧
    (setItem cfgDeb "k" 0 (some (.fin 0)) 5 stateClean).1 = .ok false :=
  ⟨rfl, rfl, by decide, rfl⟩

/-- C8 (amended): `setItem`, `getItem`, `updateItem`, `extendTTL`,
`removeItem` and `hasItem` all fail fast with `validateKey`'s error — for an
unavailable backend, an empty or whitespace-only key, or a denylisted
prototype-pollution key — before any state change; `getRemainingTTL`, by
contrast, contains no `validateKey` call: with an empty or whitespace-only
key (where the own-key record model is exact) it answers without throwing
instead of raising the validation error. -/
theorem keyed_ops_validate_key {V : Type} (cfg : VaultConfig V)
    (s : VaultState V) (k : String) (v : V) (t : JsNum) (now : Time)
    (err : VaultError)
    (hv : validateKey k s.backend.available = some err) :
    setItem cfg k v none now s = (.error err, s) ∧
    getItem cfg k now s = (.error err, s) ∧
    updateItem cfg k v now s = (.error err, s) ∧
    extendTTL cfg k t now s = (.error err, s) ∧
    removeItem cfg k now s = (.error err, s) ∧
    hasItem cfg k now s = (.error err, s) ∧
    validateKey "" true = some .emptyKey ∧
    validateKey "   " true = some .emptyKey ∧
    (∀ k2 ∈ DANGEROUS_KEYS, validateKey k2 true = some (.dangerousKey k2)) ∧
    (∀ k2, validateKey k2 false = some .storageUnavailable) ∧
    (k = "" ∨ jsTrim k = "" → cfg.debounceMs > 0 →
      ∃ r s2, getRemainingTTL cfg k now s = (.ok r, s2)) := by
  refine ⟨?_, ?_, ?_, ?_, ?_, ?_, rfl, by decide, by decide, fun k2 => rfl, ?_⟩
  · unfold setItem
    rw [hv]
  · unfold getItem
    rw [hv]
  · unfold updateItem
    rw [hv]
  · unfold extendTTL
    rw [hv]
  · unfold removeItem
    rw [hv]
  · unfold hasItem
    rw [hv]
  · intro _ hdeb
    by_cases hav : s.backend.available = true
    · rcases hG : getAllData cfg s with ⟨data, s1⟩
      cases hitem : recordGet data k with
      | none =>
        refine ⟨none, s1, ?_⟩
        unfold getRemainingTTL
        rw [hav, hG]
        simp [hitem]
      | some item =>
        cases hexp : item.expiry with
        | none =>
          refine ⟨none, s1, ?_⟩
          unfold getRemainingTTL
          rw [hav, hG]
          simp [hitem, hexp]
        | some exp =>
          by_cases hrem : exp - now ≤ 0
          · refine ⟨none, { s1 with dirty := some (recordDelete data k), pendingTimer := true }, ?_⟩
            unfold getRemainingTTL saveAllData
            rw [hav, hG]
            simp [hitem, hexp, hrem, hdeb]
          · refine ⟨some (exp - now), s1, ?_⟩
            unfold getRemainingTTL
            rw [hav, hG]
            simp [hitem, hexp, hrem]
    · have hav2 : s.backend.available = false := by
        revert hav; cases s.backend.available <;> simp
      refine ⟨none, s, ?_⟩
      unfold getRemainingTTL
      rw [hav2]
      simp

/-- Witness for C8: the empty key on an available backend. -/
theorem keyed_ops_validate_key_witness :
    validateKey "" stateClean.backend.available = some .emptyKey ∧
    (setItem cfgDeb "" 3 none 0 stateClean = (.error .emptyKey, stateClean) ∧
    getItem cfgDeb "" 0 stateClean = (.error .emptyKey, stateClean) ∧
    updateItem cfgDeb "" 3 0 stateClean = (.error .emptyKey, stateClean) ∧
    extendTTL cfgDeb "" (.fin 5) 0 stateClean = (.error .emptyKey, stateClean) ∧
    removeItem cfgDeb "" 0 stateClean = (.error .emptyKey, stateClean) ∧
    hasItem cfgDeb "" 0 stateClean = (.error .emptyKey, stateClean) ∧
    validateKey "" true = some .emptyKey ∧
    validateKey "   " true = some .emptyKey ∧
    (∀ k2 ∈ DANGEROUS_KEYS, validateKey k2 true = some (.dangerousKey k2)) ∧
    (∀ k2, validateKey k2 false = some .storageUnavailable) ∧
    ("" = "" ∨ jsTrim "" = "" → cfgDeb.debounceMs > 0 →
      ∃ r s2, getRemainingTTL cfgDeb "" 0 stateClean = (.ok r, s2))) :=
  ⟨rfl, keyed_ops_validate_key cfgDeb stateClean "" 3 (.fin 5) 0 .emptyKey rfl⟩

/-- C8 counterexample: `getRemainingTTL` does not validate its key: called
with the empty key on an available backend it answers `.ok none` instead of
throwing the descriptive error that `getItem` throws for the same key — so
the claim that every keyed operation including `getRemainingTTL` throws a
descriptive error for an invalid key is false.  (The empty key is one on
which the own-key record model is exact; the denylisted keys reach the JS
prototype chain, outside this model.) -/
theorem getRemainingTTL_skips_key_validation :
    (getRemainingTTL cfgDeb "" 0 stateClean).1 = .ok none ∧
    (getItem cfgDeb "" 0 stateClean).1 = .error .emptyKey ∧
    validateKey "" true = some .emptyKey :=
  ⟨rfl, rfl, rfl⟩

theorem enforceItemLimit_eq_of_le {V : Type} (maxItems : Nat) (d : DataRecord V)
    (h : d.length ≤ maxItems) : enforceItemLimit maxItems d = d := by
  unfold enforceItemLimit
  simp [h]

theorem enforceItemLimit_spec {V : Type} (maxItems : Nat) (d : DataRecord V)
    (hnodup : (d.map Prod.fst).Nodup) (hover : d.length > maxItems) :
    (enforceItemLimit maxItems d).length = maxItems ∧
    (∀ e ∈ d, e ∉ enforceItemLimit maxItems d →
      ∀ r ∈ enforceItemLimit maxItems d, expiryLE e.2.expiry r.2.expiry = true) ∧
    (∀ r ∈ enforceItemLimit maxItems d, r ∈ d) := by
  have hnle : ¬ d.length ≤ maxItems := by omega
  set n := d.length - maxItems with hn
  set sorted := List.insertionSort entryRel d with hsorted0
  set removedKeys := (sorted.take n).map Prod.fst with hrk
  set p : String × StoredData V → Bool :=
    fun e => !(removedKeys.contains e.1) with hp
  have hresult : enforceItemLimit maxItems d = d.filter p := by
    unfold enforceItemLimit
    rw [if_neg hnle]
  have hperm : sorted.Perm d := List.perm_insertionSort entryRel d
  have hnodS : (sorted.map Prod.fst).Nodup :=
    ((hperm.map Prod.fst).symm).nodup hnodup
  have hnodSorted : sorted.Nodup := List.Nodup.of_map Prod.fst hnodS
  have hsplit : sorted.take n ++ sorted.drop n = sorted :=
    List.take_append_drop n sorted
  have hPW : List.Pairwise entryRel (sorted.take n ++ sorted.drop n) := by
    rw [hsplit]
    exact List.sorted_insertionSort entryRel d
  have hcross : ∀ a ∈ sorted.take n, ∀ b ∈ sorted.drop n, entryRel a b :=
    (List.pairwise_append.mp hPW).2.2
  have hdisj : (sorted.take n).Disjoint (sorted.drop n) := by
    refine List.disjoint_of_nodup_append ?_
    rw [hsplit]
    exact hnodSorted
  have hinj := List.inj_on_of_nodup_map hnodS
  have hfiltTake : (sorted.take n).filter p = [] := by
    rw [List.filter_eq_nil_iff]
    intro e he hpe
    simp only [hp] at hpe
    simp at hpe
    refine hpe ?_
    rw [hrk]
    exact List.mem_map_of_mem Prod.fst he
  have hfiltDrop : (sorted.drop n).filter p = sorted.drop n := by
    rw [List.filter_eq_self]
    intro e he
    simp only [hp]
    simp
    intro hmem
    rw [hrk] at hmem
    obtain ⟨x, hx, heq⟩ := List.mem_map.mp hmem
    have hxs : x ∈ sorted := List.take_subset n sorted hx
    have hes : e ∈ sorted := List.drop_subset n sorted he
    have hxe : x = e := hinj hxs hes heq
    exact absurd he (hxe ▸ hdisj hx)
  have hfiltSorted : sorted.filter p = sorted.drop n := by
    have h1 : sorted.filter p =
        (sorted.take n).filter p ++ (sorted.drop n).filter p := by
      rw [← List.filter_append, hsplit]
    rw [h1, hfiltTake, hfiltDrop]
    rfl
  have hpermRes : (d.filter p).Perm (sorted.drop n) := by
    rw [← hfiltSorted]
    exact List.Perm.filter p hperm.symm
  have hlen : (d.filter p).length = maxItems := by
    rw [hpermRes.length_eq, List.length_drop, hperm.length_eq]
    omega
  refine ⟨by rw [hresult]; exact hlen, ?_, ?_⟩
  · intro e hed henot r hr
    rw [hresult] at henot hr
    have hpe : p e = false := by
      by_cases hpe2 : p e = true
      · exact absurd (List.mem_filter.mpr ⟨hed, hpe2⟩) henot
      · revert hpe2; cases p e <;> simp
    have hkey : e.1 ∈ removedKeys := by
      simp only [hp] at hpe
      simp at hpe
      exact hpe
    have hetake : e ∈ sorted.take n := by
      rw [hrk] at hkey
      obtain ⟨x, hx, heq⟩ := List.mem_map.mp hkey
      have hxs : x ∈ sorted := List.take_subset n sorted hx
      have hes : e ∈ sorted := hperm.symm.subset hed
      have hxe : x = e := hinj hxs hes heq
      rw [← hxe]
      exact hx
    have hrdrop : r ∈ sorted.drop n := (hpermRes.mem_iff).mp hr
    exact hcross e hetake r hrdrop
  · intro r hr
    rw [hresult] at hr
    exact (List.mem_filter.mp hr).1

theorem saveImmediateRaw_mem_over {V : Type} (cfg : VaultConfig V)
    (data : DataRecord V) (s : VaultState V)
    (hmem : s.backend.kind = .inMemory) (hav : s.backend.available = true)
    (hover : data.length > cfg.maxItemsInMemory)
    (str out : String)
    (hstr : cfg.codec.stringify (enforceItemLimit cfg.maxItemsInMemory data) =
      some str)
    (happ : chainApplyLinks cfg.links str = some out) :
    saveImmediateRaw cfg data s =
      (none, { s with backend := writtenBackend s.backend out }) := by
  unfold saveImmediateRaw Backend.write writtenBackend
  simp [hav, hmem, hover, hstr, happ]

/-- C9: on the ephemeral in-memory backend, an immediate write whose candidate
record exceeds the configured maximum evicts down to exactly
`maxItemsInMemory` items, evicting precisely the smallest-expiry entries
(with no-expiry entries sorted as infinitely late); no eviction happens at or
under the limit nor for non-ephemeral backends. -/
theorem ephemeral_item_limit_eviction {V : Type} (cfg : VaultConfig V)
    (s : VaultState V) (data : DataRecord V)
    (hnodup : (data.map Prod.fst).Nodup) :
    (s.backend.kind = .inMemory → s.backend.available = true →
      data.length > cfg.maxItemsInMemory →
      ∀ str out,
        cfg.codec.stringify (enforceItemLimit cfg.maxItemsInMemory data) =
          some str →
        chainApplyLinks cfg.links str = some out →
        saveImmediateRaw cfg data s =
          (none, { s with backend := writtenBackend s.backend out })) ∧
    (data.length > cfg.maxItemsInMemory →
      (enforceItemLimit cfg.maxItemsInMemory data).length =
        cfg.maxItemsInMemory) ∧
    (∀ e ∈ data, e ∉ enforceItemLimit cfg.maxItemsInMemory data →
      ∀ r ∈ enforceItemLimit cfg.maxItemsInMemory data,
        expiryLE e.2.expiry r.2.expiry = true) ∧
    (∀ r ∈ enforceItemLimit cfg.maxItemsInMemory data, r ∈ data) ∧
    (data.length ≤ cfg.maxItemsInMemory →
      enforceItemLimit cfg.maxItemsInMemory data = data) ∧
    (s.backend.kind ≠ .inMemory → s.backend.available = true →
      s.backend.quotaAt s.backend.attempts = false →
      ∀ str out, cfg.codec.stringify data = some str →
        chainApplyLinks cfg.links str = some out →
        saveImmediateRaw cfg data s =
          (none, { s with backend := writtenBackend s.backend out })) := by
  have hother : s.backend.kind ≠ .inMemory → s.backend.available = true →
      s.backend.quotaAt s.backend.attempts = false →
      ∀ str out, cfg.codec.stringify data = some str →
        chainApplyLinks cfg.links str = some out →
        saveImmediateRaw cfg data s =
          (none, { s with backend := writtenBackend s.backend out }) := by
    intro hkind hav hqf str out hstr happ
    exact saveImmediateRaw_success cfg data s hav (fun hk => absurd hk hkind)
      str out hstr happ (fun _ => hqf)
  by_cases hover : data.length > cfg.maxItemsInMemory
  · obtain ⟨hl, hmin, hsub⟩ :=
      enforceItemLimit_spec cfg.maxItemsInMemory data hnodup hover
    refine ⟨?_, fun _ => hl, hmin, hsub,
      fun hle => enforceItemLimit_eq_of_le _ _ hle, hother⟩
    intro hmem hav _ str out hstr happ
    exact saveImmediateRaw_mem_over cfg data s hmem hav hover str out hstr happ
  · have hle : data.length ≤ cfg.maxItemsInMemory := by omega
    have heq : enforceItemLimit cfg.maxItemsInMemory data = data :=
      enforceItemLimit_eq_of_le _ _ hle
    refine ⟨fun _ _ hov => absurd hov hover, fun hov => absurd hov hover,
      ?_, ?_, fun _ => heq, hother⟩
    · intro e he hne r hr
      rw [heq] at hne
      exact absurd he hne
    · rw [heq]
      exact fun r hr => hr

/-- Witness for C9: four staggered-expiry items against a limit of two on the
in-memory backend; the two earliest expiries (`c` at 10, `d` at 30) are
evicted and `a` (50) and `b` (never expiring) are retained in original order. -/
theorem ephemeral_item_limit_eviction_witness :
    (dFour.map Prod.fst).Nodup ∧
    dFour.length > cfgEvict.maxItemsInMemory ∧
    enforceItemLimit cfgEvict.maxItemsInMemory dFour =
      [("a", ⟨1, some 50⟩), ("b", ⟨2, none⟩)] ∧
    ((stateEvict.backend.kind = .inMemory →
      stateEvict.backend.available = true →
      dFour.length > cfgEvict.maxItemsInMemory →
      ∀ str out,
        cfgEvict.codec.stringify
          (enforceItemLimit cfgEvict.maxItemsInMemory dFour) = some str →
        chainApplyLinks cfgEvict.links str = some out →
        saveImmediateRaw cfgEvict dFour stateEvict =
          (none, { stateEvict with
            backend := writtenBackend stateEvict.backend out })) ∧
    (dFour.length > cfgEvict.maxItemsInMemory →
      (enforceItemLimit cfgEvict.maxItemsInMemory dFour).length =
        cfgEvict.maxItemsInMemory) ∧
    (∀ e ∈ dFour, e ∉ enforceItemLimit cfgEvict.maxItemsInMemory dFour →
      ∀ r ∈ enforceItemLimit cfgEvict.maxItemsInMemory dFour,
        expiryLE e.2.expiry r.2.expiry = true) ∧
    (∀ r ∈ enforceItemLimit cfgEvict.maxItemsInMemory dFour, r ∈ dFour) ∧
    (dFour.length ≤ cfgEvict.maxItemsInMemory →
      enforceItemLimit cfgEvict.maxItemsInMemory dFour = dFour) ∧
    (stateEvict.backend.kind ≠ .inMemory →
      stateEvict.backend.available = true →
      stateEvict.backend.quotaAt stateEvict.backend.attempts = false →
      ∀ str out, cfgEvict.codec.stringify dFour = some str →
        chainApplyLinks cfgEvict.links str = some out →
        saveImmediateRaw cfgEvict dFour stateEvict =
          (none, { stateEvict with
            backend := writtenBackend stateEvict.backend out }))) :=
  ⟨by decide, by decide, by decide,
   ephemeral_item_limit_eviction cfgEvict stateEvict dFour (by decide)⟩

/-- C10: removal is not expiry-aware.  For a key physically present but with
its expiry in the past, `removeItem` returns true and deletes the entry, while
`hasItem` reports false and `getItem` reports absent for the same key. -/
theorem removeItem_not_expiry_aware {V : Type} (cfg : VaultConfig V)
    (s : VaultState V) (k : String) (now : Time)
    (hdeb : cfg.debounceMs > 0) (hav : s.backend.available = true)
    (hkey : validateKey k true = none)
    (item : StoredData V)
    (hit : recordGet (getAllData cfg s).1 k = some item)
    (hexp : isExpired now item.expiry = true) :
    removeItem cfg k now s = (.ok true, { (getAllData cfg s).2 with dirty := some (recordDelete (getAllData cfg s).1 k), pendingTimer := true }) ∧
    (hasItem cfg k now s).1 = .ok false ∧
    (getItem cfg k now s).1 = .ok none := by
  have hkey2 : validateKey k s.backend.available = none := by
    rw [hav]; exact hkey
  rcases hG : getAllData cfg s with ⟨data, s1⟩
  have hit2 : recordGet data k = some item := by rw [hG] at hit; exact hit
  have hhk : recordHasKey data k = true := recordGet_isSome_of_get hit2
  refine ⟨?_, ?_, ?_⟩
  · unfold removeItem saveAllData
    rw [hkey2, hG]
    simp [hhk, hdeb]
  · unfold hasItem
    rw [hkey2, hG]
    simp [hit2, hexp, saveAllData, hdeb]
  · unfold getItem
    rw [hkey2, hG]
    simp [hit2, hexp, saveAllData, hdeb]

/-- Witness for C10: key `k` expired at 10, removed at time 50. -/
theorem removeItem_not_expiry_aware_witness :
    recordGet (getAllData cfgDeb stateExpired).1 "k" = some ⟨7, some 10⟩ ∧
    isExpired 50 (some 10) = true ∧
    (removeItem cfgDeb "k" 50 stateExpired = (.ok true, { (getAllData cfgDeb stateExpired).2 with dirty := some (recordDelete (getAllData cfgDeb stateExpired).1 "k"), pendingTimer := true }) ∧
    (hasItem cfgDeb "k" 50 stateExpired).1 = .ok false ∧
    (getItem cfgDeb "k" 50 stateExpired).1 = .ok none) :=
  ⟨rfl, rfl,
   removeItem_not_expiry_aware cfgDeb stateExpired "k" 50 (by decide) rfl
     (by decide) ⟨7, some 10⟩ rfl rfl⟩

end SmartStorage
